import Mathlib

/-!
Verification of the subtitle-editing core of the Video-editor backend.

Shallow embedding of:
- the time-string parser (`app/utils/helpers.py`, `parse_time_string`);
- the JSON salvage, parameter extraction and edit application of the chat
  workflow (`app/services/llm_service.py`, `_extract_parameters_node` and
  `_apply_edits_node`);
- subtitle timestamp adjustment after silence removal
  (`app/api/routes/silence.py`, `adjust_subtitle_timestamps`);
- keep-segment computation
  (`app/services/silence_remover_service.py`, `_calculate_keep_segments`).

Modelling conventions: Python floats are rationals (`ℚ`); Python `None`-able
values are `Option`; an uncaught Python exception is an explicit error value.
Regular-expression searches are modelled by direct left-to-right scans that
implement the specific patterns appearing in the source.  Rational arithmetic
inside executable definitions is written with `mkRat`-based helpers (`qadd`,
`qsub`, `qmul`, …) that the kernel can evaluate; they are proved equal to the
ordinary field operations just below their definitions.
-/

namespace VideoEditor

/-! ## Kernel-evaluable rational arithmetic -/

/-- Addition on `ℚ` by explicit cross-multiplication (kernel-evaluable). -/
def qadd (a b : ℚ) : ℚ := mkRat (a.num * b.den + b.num * a.den) (a.den * b.den)

/-- Subtraction on `ℚ` by explicit cross-multiplication (kernel-evaluable). -/
def qsub (a b : ℚ) : ℚ := mkRat (a.num * b.den - b.num * a.den) (a.den * b.den)

/-- Multiplication on `ℚ` in explicit form (kernel-evaluable). -/
def qmul (a b : ℚ) : ℚ := mkRat (a.num * b.num) (a.den * b.den)

/-- Negation on `ℚ` in explicit form (kernel-evaluable). -/
def qneg (a : ℚ) : ℚ := mkRat (-a.num) a.den

@[simp] theorem qadd_eq (a b : ℚ) : qadd a b = a + b := by
  unfold qadd; rw [Rat.add_def']

@[simp] theorem qsub_eq (a b : ℚ) : qsub a b = a - b := by
  unfold qsub; rw [Rat.sub_def']

@[simp] theorem qmul_eq (a b : ℚ) : qmul a b = a * b := by
  unfold qmul; rw [Rat.mul_def, Rat.normalize_eq_mkRat]

@[simp] theorem qneg_eq (a : ℚ) : qneg a = -a := by
  unfold qneg; rw [← Rat.neg_num a, ← Rat.neg_den a, Rat.mkRat_self]

/-! ## Character and digit utilities -/

/-- Maximal leading run of decimal digits (regex `\d+`, ASCII model). -/
def digitRun (cs : List Char) : List Char := cs.takeWhile Char.isDigit

/-- Numeric value of a digit string. -/
def digitsVal (ds : List Char) : ℕ := ds.foldl (fun a c => 10 * a + (c.toNat - 48)) 0

/-- Value of a digit string `ds` read as the fractional part after a decimal point. -/
def fracVal (ds : List Char) : ℚ := mkRat (digitsVal ds) (10 ^ ds.length)

/-- Literal match of the word `l` at the head of `cs`. -/
def litHere : List Char → List Char → Bool
  | [], _ => true
  | _ :: _, [] => false
  | l :: ls, c :: cs => l = c && litHere ls cs

/-- Drop leading whitespace (regex `\s*`). -/
def wsDrop (cs : List Char) : List Char := cs.dropWhile Char.isWhitespace

/-- Strip whitespace from both ends (Python `str.strip`). -/
def wsTrim (cs : List Char) : List Char := (wsDrop (wsDrop cs).reverse).reverse

/-- Lowercase a character list (Python `str.lower`, ASCII model). -/
def lowerList (cs : List Char) : List Char := cs.map Char.toLower

/-- Split on the `:` character (Python `str.split(":")`; empty groups kept). -/
def splitColon : List Char → List (List Char)
  | [] => [[]]
  | c :: rest =>
    if c = ':' then [] :: splitColon rest
    else
      match splitColon rest with
      | g :: gs => (c :: g) :: gs
      | [] => [[c]]

/-- Optional leading sign: `true` means negative. -/
def splitSign : List Char → Bool × List Char
  | '-' :: r => (true, r)
  | '+' :: r => (false, r)
  | r => (false, r)

/-- Power of ten with an optionally negative exponent (kernel-evaluable). -/
def qpow10 (neg : Bool) (e : ℕ) : ℚ :=
  if neg then mkRat 1 (10 ^ e) else mkRat ((10 : ℤ) ^ e) 1

/-- Model of Python `float(str)` restricted to finite numeric literals:
surrounding whitespace is stripped, then `[+-]? (d+ [. d*]? | . d+)
([eE][+-]? d+)?` must consume the whole string.  `inf`/`nan` and digit
underscores are not modelled (no code path in the claims produces them). -/
def pyFloat? (s : List Char) : Option ℚ :=
  let cs := wsTrim s
  let (neg, cs1) := splitSign cs
  let ds := digitRun cs1
  let rest1 := cs1.drop ds.length
  let m? : Option (ℚ × List Char) :=
    if ds.isEmpty then
      match rest1 with
      | '.' :: r2 =>
        let fs := digitRun r2
        if fs.isEmpty then none else some (fracVal fs, r2.drop fs.length)
      | _ => none
    else
      match rest1 with
      | '.' :: r2 =>
        let fs := digitRun r2
        some (qadd (digitsVal ds : ℚ) (fracVal fs), r2.drop fs.length)
      | _ => some ((digitsVal ds : ℚ), rest1)
  match m? with
  | none => none
  | some (m, rest) =>
    let v := if neg then qneg m else m
    match rest with
    | [] => some v
    | e :: r =>
      if e = 'e' ∨ e = 'E' then
        let (eneg, r1) := splitSign r
        let es := digitRun r1
        if es.isEmpty ∨ ¬ (r1.drop es.length).isEmpty then none
        else some (qmul v (qpow10 eneg (digitsVal es)))
      else none

/-! ## Time Reference Parser (`helpers.parse_time_string`) -/

/-- Alternation of unit spellings at the head of `cs`. -/
def unitHere (units : List (List Char)) (cs : List Char) : Bool :=
  units.any (fun u => litHere u cs)

/-- Model of `re.search` for the pattern `(\d+)\s*(?:u₁|u₂|…)` returning the
digit group: scan left to right; at a digit position take the maximal digit
run, skip whitespace, and require one of the unit spellings to follow. -/
def searchNumUnit (units : List (List Char)) : List Char → Option ℕ
  | [] => none
  | c :: rest =>
    if c.isDigit then
      let ds := digitRun (c :: rest)
      if unitHere units (wsDrop ((c :: rest).drop ds.length)) then
        some (digitsVal ds)
      else searchNumUnit units rest
    else searchNumUnit units rest

/-- Match attempt of `(\d+(?:\.\d+)?)\s*(?:second|sec|s)` at one starting
position (beginning with a digit): the optional fractional part is preferred
greedily, then the whitespace-skipped unit alternation must follow. -/
def secCandidate (units : List (List Char)) (all : List Char) : Option ℚ :=
  let ds := digitRun all
  let after := all.drop ds.length
  let withFrac : Option ℚ :=
    match after with
    | '.' :: r2 =>
      let fs := digitRun r2
      if fs.isEmpty then none
      else if unitHere units (wsDrop (r2.drop fs.length)) then
        some (qadd (digitsVal ds : ℚ) (fracVal fs))
      else none
    | _ => none
  match withFrac with
  | some v => some v
  | none =>
    if unitHere units (wsDrop after) then some ((digitsVal ds : ℚ))
    else none

/-- Model of `re.search` for `(\d+(?:\.\d+)?)\s*(?:second|sec|s)` returning
the matched quantity: scan left to right, attempting a match at each digit
position. -/
def searchSecUnit (units : List (List Char)) : List Char → Option ℚ
  | [] => none
  | c :: rest =>
    if c.isDigit then
      match secCandidate units (c :: rest) with
      | some v => some v
      | none => searchSecUnit units rest
    else searchSecUnit units rest

/-- Hour unit spellings of helpers.py line 70. -/
def hourUnits : List (List Char) := ["hour".toList, "hr".toList, "h".toList]

/-- Minute unit spellings of helpers.py line 75. -/
def minuteUnits : List (List Char) := ["minute".toList, "min".toList, "m".toList]

/-- Second unit spellings of helpers.py line 80. -/
def secondUnits : List (List Char) := ["second".toList, "sec".toList, "s".toList]

/-- Natural-language extraction total: hours·3600 + minutes·60 + seconds, each
term contributing `0` when its regex finds no match (helpers.py lines 66-82). -/
def nlTotal (cs : List Char) : ℚ :=
  qadd
    (qadd
      (match searchNumUnit hourUnits cs with | some n => ((n * 3600 : ℕ) : ℚ) | none => 0)
      (match searchNumUnit minuteUnits cs with | some n => ((n * 60 : ℕ) : ℚ) | none => 0))
    (match searchSecUnit secondUnits cs with | some v => v | none => 0)

/-- Colon branch of `parse_time_string` (helpers.py lines 53-64): split on `:`;
exactly 2 groups is MM:SS, exactly 3 is HH:MM:SS, each group read with
`float`; any group failing to parse falls through to the next rule. -/
def colonParse (t : List Char) : Option ℚ :=
  match splitColon t with
  | [m, s] =>
    match pyFloat? m, pyFloat? s with
    | some mv, some sv => some (qadd (qmul mv 60) sv)
    | _, _ => none
  | [h, m, s] =>
    match pyFloat? h, pyFloat? m, pyFloat? s with
    | some hv, some mv, some sv => some (qadd (qadd (qmul hv 3600) (qmul mv 60)) sv)
    | _, _, _ => none
  | _ => none

/-- The normalized text `time_str.lower().strip()` of helpers.py line 51. -/
def normText (s : String) : List Char := wsTrim (lowerList s.toList)

/-- Model of `helpers.parse_time_string` (lines 35-91): lowercase and strip,
try the colon form, then natural-language extraction; when the extracted total
is `0`, fall back to a bare `float` read; a non-colon result must be `> 0`. -/
def parse_time_string (s : String) : Option ℚ :=
  let t := normText s
  match colonParse t with
  | some v => some v
  | none =>
    let total := nlTotal t
    if total = 0 then
      match pyFloat? t with
      | none => none
      | some v => if v > 0 then some v else none
    else if total > 0 then some total else none

/-! ## JSON values and `json.loads` (used by `_extract_parameters_node`) -/

/-- A parsed JSON value.  Python's int/float distinction is collapsed into a
single rational payload (both print and parse back to the same quantity on
every code path the claims exercise). -/
inductive JVal where
  | null
  | bool (b : Bool)
  | num (q : ℚ)
  | str (s : String)
  | arr (l : List JVal)
  | obj (l : List (String × JVal))

/-- JSON whitespace (the four characters `json.loads` skips). -/
def jsonWs (c : Char) : Bool := c = ' ' ∨ c = '\t' ∨ c = '\n' ∨ c = '\r'

/-- Skip JSON whitespace. -/
def jWsDrop (cs : List Char) : List Char := cs.dropWhile jsonWs

/-- Hex digit value, if any. -/
def hexVal (c : Char) : Option ℕ :=
  if c.isDigit then some (c.toNat - 48)
  else if 'a' ≤ c ∧ c ≤ 'f' then some (c.toNat - 87)
  else if 'A' ≤ c ∧ c ≤ 'F' then some (c.toNat - 55)
  else none

/-- JSON string body after the opening quote: ordinary characters, the
standard escapes and `\uXXXX`; unescaped control characters are rejected
(strict mode of `json.loads`). -/
def parseJStr (acc : List Char) : List Char → Option (String × List Char)
  | [] => none
  | '"' :: r => some (String.mk acc.reverse, r)
  | '\\' :: '"' :: r => parseJStr ('"' :: acc) r
  | '\\' :: '\\' :: r => parseJStr ('\\' :: acc) r
  | '\\' :: '/' :: r => parseJStr ('/' :: acc) r
  | '\\' :: 'b' :: r => parseJStr (Char.ofNat 8 :: acc) r
  | '\\' :: 'f' :: r => parseJStr (Char.ofNat 12 :: acc) r
  | '\\' :: 'n' :: r => parseJStr ('\n' :: acc) r
  | '\\' :: 'r' :: r => parseJStr (Char.ofNat 13 :: acc) r
  | '\\' :: 't' :: r => parseJStr ('\t' :: acc) r
  | '\\' :: 'u' :: a :: b :: c :: d :: r =>
    match hexVal a, hexVal b, hexVal c, hexVal d with
    | some x, some y, some z, some w =>
      parseJStr (Char.ofNat (((x * 16 + y) * 16 + z) * 16 + w) :: acc) r
    | _, _, _, _ => none
  | '\\' :: _ => none
  | c :: r => if c.toNat < 32 then none else parseJStr (c :: acc) r

/-- JSON number: `-? (0 | [1-9]\d*) (\.\d+)? ([eE][+-]?\d+)?`, returning the
value and the unconsumed rest. -/
def parseJNum (cs : List Char) : Option (ℚ × List Char) :=
  let (neg, cs1) := match cs with
    | '-' :: r => (true, r)
    | r => (false, r)
  match cs1 with
  | c :: rest =>
    if ¬ c.isDigit then none
    else
      let ds := if c = '0' then ['0'] else digitRun (c :: rest)
      let r1 := (c :: rest).drop ds.length
      let fracRes : Option (ℚ × List Char) :=
        match r1 with
        | '.' :: r2 =>
          let fs := digitRun r2
          if fs.isEmpty then none else some (fracVal fs, r2.drop fs.length)
        | _ => some (0, r1)
      match fracRes with
      | none => none
      | some (fv, r2) =>
        let m := qadd (digitsVal ds : ℚ) fv
        let v := if neg then qneg m else m
        match r2 with
        | e :: r3 =>
          if e = 'e' ∨ e = 'E' then
            let (eneg, r4) := splitSign r3
            let es := digitRun r4
            if es.isEmpty then none
            else some (qmul v (qpow10 eneg (digitsVal es)), r4.drop es.length)
          else some (v, r2)
        | [] => some (v, [])
  | [] => none

mutual

/-- One JSON value (fuel-bounded recursive descent modelling `json.loads`). -/
def parseJVal : ℕ → List Char → Option (JVal × List Char)
  | 0, _ => none
  | Nat.succ fuel, cs =>
    match jWsDrop cs with
    | '\x7b' :: rest =>
      match jWsDrop rest with
      | '\x7d' :: r2 => some (.obj [], r2)
      | r2 =>
        match parseJMembers fuel r2 with
        | some (ms, r3) => some (.obj ms, r3)
        | none => none
    | '[' :: rest =>
      match jWsDrop rest with
      | ']' :: r2 => some (.arr [], r2)
      | r2 =>
        match parseJItems fuel r2 with
        | some (xs, r3) => some (.arr xs, r3)
        | none => none
    | '"' :: rest =>
      match parseJStr [] rest with
      | some (s, r) => some (.str s, r)
      | none => none
    | 't' :: 'r' :: 'u' :: 'e' :: r => some (.bool true, r)
    | 'f' :: 'a' :: 'l' :: 's' :: 'e' :: r => some (.bool false, r)
    | 'n' :: 'u' :: 'l' :: 'l' :: r => some (.null, r)
    | rest =>
      match parseJNum rest with
      | some (q, r) => some (.num q, r)
      | none => none

/-- Members of a JSON object, consuming the closing brace. -/
def parseJMembers : ℕ → List Char → Option (List (String × JVal) × List Char)
  | 0, _ => none
  | Nat.succ fuel, cs =>
    match jWsDrop cs with
    | '"' :: rest =>
      match parseJStr [] rest with
      | none => none
      | some (k, r1) =>
        match jWsDrop r1 with
        | ':' :: r2 =>
          match parseJVal fuel r2 with
          | none => none
          | some (v, r3) =>
            match jWsDrop r3 with
            | ',' :: r4 =>
              match parseJMembers fuel r4 with
              | some (ms, r5) => some ((k, v) :: ms, r5)
              | none => none
            | '\x7d' :: r4 => some ([(k, v)], r4)
            | _ => none
        | _ => none
    | _ => none

/-- Items of a JSON array, consuming the closing bracket. -/
def parseJItems : ℕ → List Char → Option (List JVal × List Char)
  | 0, _ => none
  | Nat.succ fuel, cs =>
    match parseJVal fuel cs with
    | none => none
    | some (v, r1) =>
      match jWsDrop r1 with
      | ',' :: r2 =>
        match parseJItems fuel r2 with
        | some (xs, r3) => some (v :: xs, r3)
        | none => none
      | ']' :: r2 => some ([v], r2)
      | _ => none

end

/-- Model of `json.loads`: parse one value and require only whitespace after
it.  The fuel `2·|s| + 2` over-approximates the recursion depth. -/
def json_loads (s : String) : Option JVal :=
  match parseJVal (2 * s.length + 2) s.toList with
  | some (v, rest) => if (jWsDrop rest).isEmpty then some v else none
  | none => none

/-- Model of `re.search` for the salvage pattern matching a brace, one or more
non-closing-brace characters, and a closing brace (llm_service.py line 216):
returns the leftmost match. -/
def braceSearch : List Char → Option (List Char)
  | [] => none
  | c :: rest =>
    if c = '\x7b' then
      let body := rest.takeWhile (fun d => d ≠ '\x7d')
      if body.isEmpty then braceSearch rest
      else
        match rest.drop body.length with
        | '\x7d' :: _ => some ('\x7b' :: (body ++ ['\x7d']))
        | _ => braceSearch rest
    else braceSearch rest

/-- Outcome of the parameter-text salvage: either a parsed value or an
uncaught `json.JSONDecodeError` that aborts the whole request. -/
inductive ParamsResult where
  | ok (v : JVal)
  | jsonError

/-- Model of `_extract_parameters_node` lines 211-220: try `json.loads` on the
stripped oracle text; on failure search for the first brace-delimited
substring and, if one exists, parse it with `json.loads` — a second failure
raises; with no brace-delimited substring, `params` becomes the empty dict. -/
def parseParamsText (content : String) : ParamsResult :=
  match json_loads (String.mk (wsTrim content.toList)) with
  | some v => .ok v
  | none =>
    match braceSearch content.toList with
    | some sub =>
      match json_loads (String.mk sub) with
      | some v => .ok v
      | none => .jsonError
    | none => .ok (.obj [])

/-! ## Python value semantics: `str`, truthiness, `dict.get` -/

/-- Fuel-bounded count of decimal digits needed to write `q` exactly (exact
for the 10-smooth denominators that JSON-derived numbers always have). -/
def decDigits : ℕ → ℚ → ℕ
  | 0, _ => 0
  | fuel + 1, q => if q.den = 1 then 0 else decDigits fuel (qmul q 10) + 1

/-- Pad a digit string on the left with zeros up to width `k`. -/
def padZeros (s : String) (k : ℕ) : String :=
  String.mk (List.replicate (k - s.length) '0') ++ s

/-- Decimal representation of a rational with 10-smooth denominator, modelling
Python `str` of a JSON-derived number (scientific notation for very large or
very small magnitudes is not modelled; no claim inspects such values). -/
def decRepr (q : ℚ) : String :=
  let k := decDigits q.den q
  let n := (qmul q (qpow10 false k)).num
  let a := n.natAbs
  let sign := if n < 0 then "-" else ""
  if k = 0 then sign ++ toString a
  else sign ++ toString (a / 10 ^ k) ++ "." ++ padZeros (toString (a % 10 ^ k)) k

mutual

/-- Python `repr` of a JSON-derived value (model; string escaping inside
containers is not modelled). -/
def pyReprV : JVal → String
  | .null => "None"
  | .bool true => "True"
  | .bool false => "False"
  | .num q => decRepr q
  | .str s => "'" ++ s ++ "'"
  | .arr l => "[" ++ pyReprList l ++ "]"
  | .obj l => "\x7b" ++ pyReprPairs l ++ "\x7d"

/-- Comma-separated `repr`s of list elements. -/
def pyReprList : List JVal → String
  | [] => ""
  | [v] => pyReprV v
  | v :: vs => pyReprV v ++ ", " ++ pyReprList vs

/-- Comma-separated `repr`s of dict entries. -/
def pyReprPairs : List (String × JVal) → String
  | [] => ""
  | [(k, v)] => "'" ++ k ++ "': " ++ pyReprV v
  | (k, v) :: ps => "'" ++ k ++ "': " ++ pyReprV v ++ ", " ++ pyReprPairs ps

end

/-- Python `str` of a JSON-derived value: like `repr` except bare strings. -/
def pyStr : JVal → String
  | .str s => s
  | v => pyReprV v

/-- Python truthiness of a JSON-derived value. -/
def pyTruthy : JVal → Bool
  | .null => false
  | .bool b => b
  | .num q => q != 0
  | .str s => s != ""
  | .arr l => !l.isEmpty
  | .obj l => !l.isEmpty

/-- A parameter dictionary as produced by `json.loads`. -/
abbrev Params := List (String × JVal)

/-- Python dict lookup (later duplicate keys win, as in `json.loads`). -/
def dictGet (ps : Params) (k : String) : Option JVal :=
  (ps.reverse.find? (fun p => p.1 == k)).map (fun p => p.2)

/-- Model of `params.get(key)`: `None` when the key is absent or its value is
JSON null (Python cannot distinguish the two). -/
def pyGetOpt (ps : Params) (k : String) : Option JVal :=
  match dictGet ps k with
  | some JVal.null => none
  | some v => some v
  | none => none

/-- Model of `params.get(key, default)`: a present null is returned as null. -/
def pyGetD (ps : Params) (k : String) (d : JVal) : JVal :=
  (dictGet ps k).getD d

/-! ## The edit record built by `_extract_parameters_node` -/

/-- The `SubtitleEdit` dict built by `_extract_parameters_node`.  For
`subtitle_index`, `none` means the key is absent from the dict (addition
path); `some JVal.null` models an explicit Python `None` value.  For the
other raw fields, `none` models a Python `None` value (absent and null
parameter values collapse to `None`).  `start_time`/`end_time` hold the
already-parsed float, as in the source. -/
structure SubtitleEdit where
  subtitle_index : Option JVal := none
  text : Option JVal := none
  start_time : Option ℚ := none
  end_time : Option ℚ := none
  font_family : Option JVal := none
  font_size : Option JVal := none
  font_color : Option JVal := none
  position : Option JVal := none
  bold : Option JVal := none
  italic : Option JVal := none

/-- Modification path of `_extract_parameters_node` (lines 223-242):
`subtitle_index` defaults to `-1` only when the key is absent; all other
fields carry the raw parameter value, with `start_time`/`end_time` parsed
only when present and non-null. -/
def modificationEdit (params : Params) : SubtitleEdit where
  subtitle_index := some (pyGetD params "subtitle_index" (.num (-1)))
  text := pyGetOpt params "text"
  start_time :=
    match pyGetOpt params "start_time" with
    | some v => parse_time_string (pyStr v)
    | none => none
  end_time :=
    match pyGetOpt params "end_time" with
    | some v => parse_time_string (pyStr v)
    | none => none
  font_family := pyGetOpt params "font_family"
  font_size := pyGetOpt params "font_size"
  font_color := pyGetOpt params "font_color"
  position := pyGetOpt params "position"
  bold := pyGetOpt params "bold"
  italic := pyGetOpt params "italic"

/-- Python `x or default` (truthiness-based defaulting, lines 265 and 352-357). -/
def orDefault (v : Option JVal) (d : JVal) : JVal :=
  match v with
  | some x => if pyTruthy x then x else d
  | none => d

/-- Python `float(x)` coercion; `none` models a raised `TypeError` or
`ValueError` (line 266-267 of llm_service.py). -/
def floatCoerce : JVal → Option ℚ
  | .num q => some q
  | .bool b => some (if b then 1 else 0)
  | .str s => pyFloat? s.toList
  | _ => none

/-- Numeric view of a value for Python arithmetic and comparisons (bools are
ints in Python). -/
def toNumQ : JVal → Option ℚ
  | .num q => some q
  | .bool b => some (if b then 1 else 0)
  | _ => none

/-- Python `start_time + 3.0` (line 257); `none` models a `TypeError`. -/
def plus3 (v : JVal) : Option ℚ :=
  match toNumQ v with
  | some q => some (qadd q 3)
  | none => none

/-- Python `end_time <= start_time` (line 260): numbers and bools compare
numerically, two strings compare lexicographically, mixed or non-ordered
types raise `TypeError` (`none`). -/
def pyLe (a b : JVal) : Option Bool :=
  match a, b with
  | .str x, .str y => some (decide (x ≤ y))
  | _, _ =>
    match toNumQ a, toNumQ b with
    | some x, some y => some (decide (x ≤ y))
    | _, _ => none

/-- Value of the addition path's `start_time` variable after lines 246-249:
parse only truthy values, then default `None` to `0.0`; falsy non-null
parameter values (numeric `0`, `""`, `[]`, …) skip both the parse and the
default and flow through raw. -/
def addStartVal (params : Params) : JVal :=
  match pyGetOpt params "start_time" with
  | none => .num 0
  | some v =>
    if pyTruthy v then
      match parse_time_string (pyStr v) with
      | some q => .num q
      | none => .num 0
    else v

/-- Value of the addition path's `end_time` variable after lines 251-261,
given the settled `start_time` value: parse truthy values, default `None` to
`start + 3.0`, and replace values `≤ start` by `start + 3.0`; `none` models
an uncaught `TypeError` from the `+` or `<=` on a non-numeric value. -/
def addEndVal (params : Params) (st : JVal) : Option JVal :=
  let e0 : Option JVal :=
    match pyGetOpt params "end_time" with
    | none => none
    | some v =>
      if pyTruthy v then
        match parse_time_string (pyStr v) with
        | some q => some (.num q)
        | none => none
      else some v
  match e0 with
  | none => (plus3 st).map .num
  | some e =>
    match pyLe e st with
    | some true => (plus3 st).map .num
    | some false => some e
    | none => none

/-- Addition path of `_extract_parameters_node` (lines 244-274): text
defaults by truthiness to `""`, times are settled as above and finally
coerced with `float()`; `none` models an uncaught exception. -/
def additionEdit (params : Params) : Option SubtitleEdit :=
  let st := addStartVal params
  match addEndVal params st with
  | none => none
  | some en =>
    match floatCoerce st, floatCoerce en with
    | some sq, some eq2 =>
      some
        { subtitle_index := none
          text := some (orDefault (pyGetOpt params "text") (.str ""))
          start_time := some sq
          end_time := some eq2
          font_family := pyGetOpt params "font_family"
          font_size := pyGetOpt params "font_size"
          font_color := pyGetOpt params "font_color"
          position := pyGetOpt params "position"
          bold := pyGetOpt params "bold"
          italic := pyGetOpt params "italic" }
    | _, _ => none

/-- Result of `_extract_parameters_node` (lines 142-278): `noEdits` models
`should_apply_edits = False` for unhandled intents, `raised` an uncaught
exception inside the node (which aborts the request). -/
inductive ExtractResult where
  | noEdits
  | edit (e : SubtitleEdit)
  | raised

/-- Model of `_extract_parameters_node` on an already-parsed parameter dict:
intents outside the handled set produce no edits; `modify_subtitle` takes the
modification path; `add_subtitle` and `modify_style` take the addition path. -/
def extract_parameters (intent : String) (params : Params) : ExtractResult :=
  if intent = "add_subtitle" ∨ intent = "modify_subtitle" ∨ intent = "modify_style" then
    if intent = "modify_subtitle" then .edit (modificationEdit params)
    else
      match additionEdit params with
      | some e => .edit e
      | none => .raised
  else .noEdits

/-! ## Data model (schemas.py) and the apply node -/

/-- Subtitle style (schemas.SubtitleStyle); `position` is kept as its raw
string value (`"top"`, `"center"` or `"bottom"`). -/
structure SubtitleStyle where
  font_family : String
  font_size : ℤ
  font_color : String
  position : String
  background_color : Option String := none
  bold : Bool
  italic : Bool

deriving Repr, DecidableEq

/-- Subtitle entry (schemas.Subtitle); pydantic validates `start_time ≥ 0`
and `end_time ≥ 0` at construction (there is no `end_time > start_time`
validator in the schema). -/
structure Subtitle where
  id : String
  text : String
  start_time : ℚ
  end_time : ℚ
  style : SubtitleStyle

deriving Repr, DecidableEq

/-- Pydantic validation of a `str` field (v2: no numeric coercion). -/
def vStr : JVal → Option String
  | .str s => some s
  | _ => none

/-- Pydantic validation of the `font_size` field (`int`, `ge=12`, `le=72`);
integral floats are accepted; lax string coercion is not modelled (no claim
exercises it). -/
def vFontSize : JVal → Option ℤ
  | .num q => if q.den = 1 ∧ 12 ≤ q.num ∧ q.num ≤ 72 then some q.num else none
  | _ => none

/-- Pydantic validation of the `position` enum field. -/
def vPosition : JVal → Option String
  | .str s => if s = "top" ∨ s = "center" ∨ s = "bottom" then some s else none
  | _ => none

/-- Pydantic validation of a `bool` field (0/1 numbers accepted; lax string
forms are not modelled). -/
def vBool : JVal → Option Bool
  | .bool b => some b
  | .num q => if q = 0 then some false else if q = 1 then some true else none
  | _ => none

/-- Overlay of one field in the modification branch (lines 322-336):
`edit.get(k) if edit.get(k) is not None else existing`, validated by the
pydantic constructor; `none` is a `ValidationError`. -/
def overlayField {α : Type} (v : Option JVal) (check : JVal → Option α) (old : α) : Option α :=
  match v with
  | some x => check x
  | none => some old

/-- Outcome of `_apply_edits_node` for one edit: `ok` carries the new
subtitle list and `state["modified_index"]`; `indexError` models the handled
`"Invalid subtitle index"` state error (session untouched); `raised` models
an uncaught exception (session untouched). -/
inductive ApplyOutcome where
  | ok (subs : List Subtitle) (modified : Option ℕ)
  | indexError (idx : JVal)
  | raised

/-- Modification branch of `_apply_edits_node` (lines 318-342) at the
already-resolved, in-bounds index `i`: rebuild the style and the subtitle
field-by-field, keeping the original id, and replace position `i`.  The
`SubtitleStyle` constructor on line 322 omits `background_color`, so the
rebuilt style carries the schema default `None`. -/
def modifyBranch (subs : List Subtitle) (e : SubtitleEdit) (i : ℕ) : ApplyOutcome :=
  match subs[i]? with
  | none => .raised
  | some existing =>
    match overlayField e.font_family vStr existing.style.font_family,
        overlayField e.font_size vFontSize existing.style.font_size,
        overlayField e.font_color vStr existing.style.font_color,
        overlayField e.position vPosition existing.style.position,
        overlayField e.bold vBool existing.style.bold,
        overlayField e.italic vBool existing.style.italic,
        overlayField e.text vStr existing.text with
    | some ff, some fs, some fc, some pos, some bo, some it, some tx =>
      let st := e.start_time.getD existing.start_time
      let en := e.end_time.getD existing.end_time
      if st < 0 ∨ en < 0 then .raised
      else
        .ok (subs.set i
          { id := existing.id
            text := tx
            start_time := st
            end_time := en
            style :=
              { font_family := ff, font_size := fs, font_color := fc,
                position := pos, background_color := none,
                bold := bo, italic := it } }) (some i)
    | _, _, _, _, _, _, _ => .raised

/-- Addition branch of `_apply_edits_node` (lines 344-360): construct a fresh
subtitle (`freshId` stands in for `generate_id("sub")`), defaulting falsy
style fields from the configured defaults of config.py, and append it. -/
def addBranch (subs : List Subtitle) (freshId : String) (e : SubtitleEdit) : ApplyOutcome :=
  match (match e.text with | some v => vStr v | none => none),
      vStr (orDefault e.font_family (.str "Arial")),
      vFontSize (orDefault e.font_size (.num 32)),
      vStr (orDefault e.font_color (.str "white")),
      vPosition (orDefault e.position (.str "bottom")),
      vBool (orDefault e.bold (.bool false)),
      vBool (orDefault e.italic (.bool false)),
      e.start_time, e.end_time with
  | some tx, some ff, some fs, some fc, some pos, some bo, some it, some st, some en =>
    if st < 0 ∨ en < 0 then .raised
    else
      .ok (subs ++
        [{ id := freshId
           text := tx
           start_time := st
           end_time := en
           style :=
             { font_family := ff, font_size := fs, font_color := fc,
               position := pos, background_color := none,
               bold := bo, italic := it } }]) none
  | _, _, _, _, _, _, _, _, _ => .raised

/-- Python numeric value of `edit["subtitle_index"]` as used by `index < 0`
(bools are ints in Python; other types raise `TypeError`). -/
def idxVal : JVal → Option ℚ
  | .num q => some q
  | .bool b => some (if b then 1 else 0)
  | _ => none

/-- One iteration of the edit loop of `_apply_edits_node` (lines 303-360):
route on the presence of a non-null `subtitle_index`, resolve a negative
index against the current length, bounds-check it (the handled state error),
and run the corresponding branch. -/
def apply_edit (subs : List Subtitle) (freshId : String) (e : SubtitleEdit) : ApplyOutcome :=
  match e.subtitle_index with
  | some iv =>
    match iv with
    | .null => addBranch subs freshId e
    | _ =>
      match idxVal iv with
      | none => .raised
      | some i0 =>
        let i := if i0 < 0 then qadd (subs.length : ℚ) i0 else i0
        if i < 0 ∨ (subs.length : ℚ) ≤ i then .indexError iv
        else if i.den ≠ 1 then .raised
        else modifyBranch subs e i.num.toNat
  | none => addBranch subs freshId e

/-- Timeline visible in the session after `_apply_edits_node` runs one edit:
only the `ok` outcome reaches `update_subtitles` (line 363); the handled
index error returns early and an exception propagates, so in both cases the
session keeps its previous subtitles. -/
def sessionAfter (subs : List Subtitle) (freshId : String) (e : SubtitleEdit) : List Subtitle :=
  match apply_edit subs freshId e with
  | .ok l _ => l
  | _ => subs

/-! ## Silence compaction -/

/-- Silent segment (silence_remover_service.SilenceSegment); `stop` renders
the `end` attribute (a Lean keyword); `duration` is stored independently of
`start`/`stop`, as in the source. -/
structure SilenceSeg where
  start : ℚ
  stop : ℚ
  duration : ℚ

deriving Repr, DecidableEq

/-- Sum of `seg.duration` over the segments with `seg.end <= t`
(silence.py lines 56-65). -/
def removedBefore (segs : List SilenceSeg) (t : ℚ) : ℚ :=
  (segs.filter (fun g => g.stop ≤ t)).foldl (fun a g => qadd a g.duration) 0

/-- Round-half-to-even of a rational to an integer (Python `round`
semantics; binary floating-point representation error is not modelled). -/
def rhe (q : ℚ) : ℤ :=
  let f := q.num.fdiv q.den
  let r2 := 2 * (q.num - f * q.den)
  if r2 < (q.den : ℤ) then f
  else if (q.den : ℤ) < r2 then f + 1
  else if f % 2 = 0 then f else f + 1

/-- Python `round(x, 2)`. -/
def round2 (q : ℚ) : ℚ := mkRat (rhe (qmul q 100)) 100

/-- Model of `silence.adjust_subtitle_timestamps` (silence.py lines 38-77):
with a non-empty subtitle list and a non-empty silence list, shift each
timestamp by the total duration of fully completed silences, keep the
subtitle when the unrounded shifted times satisfy `new_start ≥ 0` and
`new_end > new_start`, and round the kept times to two decimals; with either
list empty the input is returned unchanged. -/
def adjust_subtitle_timestamps (subs : List Subtitle) (segs : List SilenceSeg) :
    List Subtitle :=
  if subs.isEmpty ∨ segs.isEmpty then subs
  else
    subs.filterMap (fun sub =>
      let ns := qsub sub.start_time (removedBefore segs sub.start_time)
      let ne := qsub sub.end_time (removedBefore segs sub.end_time)
      if 0 ≤ ns ∧ ns < ne then
        some { sub with start_time := round2 ns, end_time := round2 ne }
      else none)

/-- Cursor walk of `_calculate_keep_segments`
(silence_remover_service.py lines 233-246). -/
def keepWalk (current : ℚ) (T : ℚ) : List SilenceSeg → List (ℚ × ℚ)
  | [] => if current < T then [(current, T)] else []
  | g :: rest =>
    (if current < g.start then [(current, g.start)] else []) ++ keepWalk g.stop T rest

/-- Model of `SilenceRemoverService._calculate_keep_segments`. -/
def calculate_keep_segments (segs : List SilenceSeg) (total_duration : ℚ) :
    List (ℚ × ℚ) :=
  keepWalk 0 total_duration segs

/-! ## Shared concrete fixtures -/

/-- The default style of config.py. -/
def styleD : SubtitleStyle :=
  { font_family := "Arial", font_size := 32, font_color := "white",
    position := "bottom", bold := false, italic := false }

/-- The silence list `[(2,4),(6,7)]` of the worked spec example. -/
def segsEx : List SilenceSeg :=
  [{ start := 2, stop := 4, duration := 2 }, { start := 6, stop := 7, duration := 1 }]

/-- The subtitle `(start=5, end=8)` of the worked spec example. -/
def subEx58 : Subtitle :=
  { id := "s", text := "t", start_time := 5, end_time := 8, style := styleD }

/-! ## C2 — silence-compaction timestamp remap -/

/-- The remap function exactly as claim C2 words it, for comparison with the
source function: on every subtitle list and silence list, each timestamp
becomes `round(t - removed_before(t), 2)` and a subtitle is kept iff the
resulting (rounded) times satisfy `new_start ≥ 0` and `new_end > new_start`. -/
def claimRemapC2 (subs : List Subtitle) (segs : List SilenceSeg) : List Subtitle :=
  subs.filterMap (fun sub =>
    let ns := round2 (qsub sub.start_time (removedBefore segs sub.start_time))
    let ne := round2 (qsub sub.end_time (removedBefore segs sub.end_time))
    if 0 ≤ ns ∧ ns < ne then
      some { sub with start_time := ns, end_time := ne }
    else none)

/-- A subtitle whose timestamps carry more than two decimals
(`start = 5.125`, `end = 8.5`). -/
def subC2 : Subtitle :=
  { id := "s1", text := "hello", start_time := mkRat 41 8, end_time := mkRat 17 2,
    style := styleD }

/-- Spec-side version of amended claim C2: the remap applies only when both
the subtitle list and the silence list are non-empty (otherwise the input is
returned unchanged); `removed_before(t)` is the sum of the durations of the
silence intervals whose end is `≤ t`; a subtitle is kept iff the unrounded
shifted times satisfy `new_start ≥ 0` and `new_end > new_start`, and kept
subtitles get their times rounded to two decimals, in input order. -/
def specAdjustC2 (subs : List Subtitle) (segs : List SilenceSeg) : List Subtitle :=
  if subs = [] ∨ segs = [] then subs
  else
    subs.filterMap (fun sub =>
      let us := sub.start_time -
        ((segs.filter (fun g => g.stop ≤ sub.start_time)).map (fun g => g.duration)).sum
      let ue := sub.end_time -
        ((segs.filter (fun g => g.stop ≤ sub.end_time)).map (fun g => g.duration)).sum
      if 0 ≤ us ∧ us < ue then
        some { sub with start_time := round2 us, end_time := round2 ue }
      else none)

/-! ## C3 — keep-interval computation -/

/-- Well-formedness of a silence list relative to cursor `c` and total
duration `T`: intervals are sorted, pairwise disjoint and contained in
`[c, T]`. -/
def SilenceOK (T : ℚ) : ℚ → List SilenceSeg → Prop
  | c, [] => c ≤ T
  | c, g :: rest => c ≤ g.start ∧ g.start ≤ g.stop ∧ SilenceOK T g.stop rest

/-- Decidability of `SilenceOK` (used to discharge hypotheses on concrete
inputs). -/
def silenceOKDec : (T c : ℚ) → (l : List SilenceSeg) → Decidable (SilenceOK T c l)
  | T, c, [] => inferInstanceAs (Decidable (c ≤ T))
  | T, c, g :: rest =>
    have : Decidable (SilenceOK T g.stop rest) := silenceOKDec T g.stop rest
    inferInstanceAs (Decidable (c ≤ g.start ∧ g.start ≤ g.stop ∧ SilenceOK T g.stop rest))

instance (T c : ℚ) (l : List SilenceSeg) : Decidable (SilenceOK T c l) :=
  silenceOKDec T c l

/-! ## C4 — `modify_style` routing -/

/-- A `modify_style` parameter map that carries an explicit ordinal. -/
def paramsC4 : Params := [("subtitle_index", .num 2), ("font_color", .str "red")]

/-- The edit actually produced for `paramsC4` on the `modify_style` intent. -/
def editC4 : SubtitleEdit :=
  { subtitle_index := none, text := some (.str ""),
    start_time := some 0, end_time := some 3, font_color := some (.str "red") }

/-- A helper constructor for fixture subtitles. -/
def subFix (i : String) (a b : ℚ) : Subtitle :=
  { id := i, text := i, start_time := a, end_time := b, style := styleD }

/-- A three-element timeline fixture. -/
def tlC4 : List Subtitle := [subFix "a" 0 1, subFix "b" 1 2, subFix "c" 2 3]

/-! ## C10 — explicit-null ordinal routing -/

/-- An edit fixture for the insertion branch. -/
def editIns : SubtitleEdit :=
  { subtitle_index := none, text := some (.str "x"),
    start_time := some 1, end_time := some 2 }

/-- An out-of-range update fixture (`subtitle_index = 5`). -/
def editIdx5 : SubtitleEdit := { subtitle_index := some (.num ((5 : ℤ) : ℚ)) }

/-- A plain text-update fixture without an index. -/
def editUpd : SubtitleEdit := { text := some (.str "new") }

/-! ## C7 — modification-path frame effect -/

/-- What a successful modification apply guarantees (claim C7): the modified
index is reported, the result replaces exactly position `i` with a subtitle
that keeps the original id, every `None` field of the edit leaves the
existing value untouched, and present fields are overlaid through the
pydantic validators. -/
def OverlayConcl (subs : List Subtitle) (e : SubtitleEdit) (i : ℕ) (ex : Subtitle)
    (l : List Subtitle) (m : Option ℕ) : Prop :=
  m = some i ∧ ∃ u, l = subs.set i u ∧
    u.id = ex.id ∧
    (e.text = none → u.text = ex.text) ∧
    (∀ v, e.text = some v → vStr v = some u.text) ∧
    (e.start_time = none → u.start_time = ex.start_time) ∧
    (∀ q, e.start_time = some q → u.start_time = q) ∧
    (e.end_time = none → u.end_time = ex.end_time) ∧
    (∀ q, e.end_time = some q → u.end_time = q) ∧
    (e.font_family = none → u.style.font_family = ex.style.font_family) ∧
    (e.font_size = none → u.style.font_size = ex.style.font_size) ∧
    (e.font_color = none → u.style.font_color = ex.style.font_color) ∧
    (∀ v, e.font_color = some v → vStr v = some u.style.font_color) ∧
    (e.position = none → u.style.position = ex.style.position) ∧
    (e.bold = none → u.style.bold = ex.style.bold) ∧
    (e.italic = none → u.style.italic = ex.style.italic)

/-- A style-only modification fixture. -/
def editFC : SubtitleEdit := { font_color := some (.str "red") }

/-- The subtitle produced by applying `editFC` to `subEx58`. -/
def subFC : Subtitle := { subEx58 with style := { styleD with font_color := "red" } }

/-! ## C1 — timing invariant after mutations -/

/-- A valid existing subtitle (`0`–`3`). -/
def subC1 : Subtitle :=
  { id := "sub_1", text := "hello", start_time := 0, end_time := 3, style := styleD }

/-- An indexed update that moves `start_time` to `5`, past the existing
`end_time` of `3`. -/
def editC1 : SubtitleEdit := { subtitle_index := some (.num 0), start_time := some 5 }

/-- The edit built for a request carrying only `text="Hi"`. -/
def editHi : SubtitleEdit :=
  { subtitle_index := none, text := some (.str "Hi"),
    start_time := some 0, end_time := some 3 }

/-- The subtitle appended by `editIns`. -/
def subIns : Subtitle :=
  { id := "f2", text := "x", start_time := 1, end_time := 2, style := styleD }

/-! ## Lemmas and claim theorems -/

/-- Claim C2 is false as stated: it asserts the remap for every subtitle list
and silence-interval list, but with an empty silence list the code returns
the subtitles unchanged (early return on silence.py line 49) instead of
applying `round(t - 0, 2)`: on `start = 5.125` the claimed remap yields
`5.12`. -/
theorem C2_counterexample :
    adjust_subtitle_timestamps [subC2] [] = [subC2] ∧
    claimRemapC2 [subC2] [] ≠ [subC2] ∧
    claimRemapC2 [subC2] [] =
      [{ subC2 with start_time := mkRat 128 25, end_time := mkRat 17 2 }] := by
  refine ⟨rfl, ?_, rfl⟩
  decide

theorem foldl_qadd_duration (l : List SilenceSeg) (a : ℚ) :
    l.foldl (fun a g => qadd a g.duration) a = a + (l.map (fun g => g.duration)).sum := by
  induction l generalizing a with
  | nil => simp
  | cons g rest ih =>
    rw [List.foldl_cons, ih, qadd_eq, List.map_cons, List.sum_cons]
    ring

theorem removedBefore_eq (segs : List SilenceSeg) (t : ℚ) :
    removedBefore segs t =
      ((segs.filter (fun g => g.stop ≤ t)).map (fun g => g.duration)).sum := by
  unfold removedBefore
  rw [foldl_qadd_duration]
  ring

/-- Amended claim C2: the source remap agrees with the spec-side remap above
on all inputs, and the worked example still holds — with silence
`[(2,4),(6,7)]` the subtitle `(5, 8)` maps to `(3.0, 5.0)` and is retained. -/
theorem C2_amended :
    (∀ subs segs, adjust_subtitle_timestamps subs segs = specAdjustC2 subs segs) ∧
    adjust_subtitle_timestamps [subEx58] segsEx =
      [{ subEx58 with start_time := 3, end_time := 5 }] := by
  constructor
  · intro subs segs
    unfold adjust_subtitle_timestamps specAdjustC2
    simp only [removedBefore_eq, qsub_eq, List.isEmpty_iff]
  · decide

theorem silenceOK_le {T : ℚ} : ∀ {c : ℚ} {l : List SilenceSeg}, SilenceOK T c l → c ≤ T
  | _, [], h => h
  | _, _ :: _, h => le_trans (le_trans h.1 h.2.1) (silenceOK_le h.2.2)

theorem silenceOK_start_le {T : ℚ} :
    ∀ {c : ℚ} {l : List SilenceSeg}, SilenceOK T c l → ∀ g ∈ l, c ≤ g.start := by
  intro c l h g hg
  induction l generalizing c with
  | nil => cases hg
  | cons g0 rest ih =>
    rcases List.mem_cons.1 hg with rfl | hg'
    · exact h.1
    · exact le_trans (le_trans h.1 h.2.1) (ih h.2.2 hg')

theorem keepWalk_bounds {T : ℚ} :
    ∀ (l : List SilenceSeg) (c : ℚ), SilenceOK T c l →
      ∀ p ∈ keepWalk c T l, c ≤ p.1 ∧ p.1 < p.2 ∧ p.2 ≤ T := by
  intro l
  induction l with
  | nil =>
    intro c h p hp
    simp only [keepWalk] at hp
    by_cases hc : c < T
    · simp [hc] at hp
      subst hp
      exact ⟨le_refl c, hc, le_refl T⟩
    · simp [hc] at hp
  | cons g rest ih =>
    intro c h p hp
    obtain ⟨h1, h2, h3⟩ := h
    have hT : g.stop ≤ T := silenceOK_le h3
    simp only [keepWalk, List.mem_append] at hp
    rcases hp with hp | hp
    · by_cases hc : c < g.start
      · simp [hc] at hp
        subst hp
        exact ⟨le_refl c, hc, le_trans h2 hT⟩
      · simp [hc] at hp
    · have := ih g.stop h3 p hp
      exact ⟨le_trans (le_trans h1 h2) this.1, this.2⟩

theorem keepWalk_chain {T : ℚ} :
    ∀ (l : List SilenceSeg) (c : ℚ), SilenceOK T c l →
      List.Chain' (fun p q : ℚ × ℚ => p.2 ≤ q.1) (keepWalk c T l) := by
  intro l
  induction l with
  | nil =>
    intro c _
    simp only [keepWalk]
    by_cases hc : c < T <;> simp [hc]
  | cons g rest ih =>
    intro c h
    obtain ⟨h1, h2, h3⟩ := h
    simp only [keepWalk]
    rw [List.chain'_append]
    refine ⟨?_, ih g.stop h3, ?_⟩
    · by_cases hc : c < g.start <;> simp [hc]
    · intro x hx y hy
      have hxval : x.2 ≤ g.stop := by
        by_cases hc : c < g.start
        · simp [hc] at hx
          cases hx
          exact h2
        · simp [hc] at hx
      have hy1 : y ∈ keepWalk g.stop T rest := List.mem_of_mem_head? hy
      exact le_trans hxval (keepWalk_bounds rest g.stop h3 y hy1).1

theorem keepWalk_cover {T : ℚ} :
    ∀ (l : List SilenceSeg) (c : ℚ), SilenceOK T c l → ∀ t : ℚ,
      ((∃ p ∈ keepWalk c T l, p.1 ≤ t ∧ t < p.2) ↔
        (c ≤ t ∧ t < T ∧ ∀ g ∈ l, ¬ (g.start ≤ t ∧ t < g.stop))) := by
  intro l
  induction l with
  | nil =>
    intro c h t
    simp only [keepWalk]
    by_cases hc : c < T
    · simp [hc]
    · simp only [hc, if_false]
      constructor
      · rintro ⟨p, hp, _⟩
        cases hp
      · rintro ⟨hct, htT, _⟩
        exact absurd (lt_of_le_of_lt hct htT) hc
  | cons g rest ih =>
    intro c h t
    obtain ⟨h1, h2, h3⟩ := h
    have hT : g.stop ≤ T := silenceOK_le h3
    simp only [keepWalk, List.mem_append]
    constructor
    · rintro ⟨p, hp, hle, hlt⟩
      rcases hp with hp | hp
      · by_cases hc : c < g.start
        · simp [hc] at hp
          subst hp
          refine ⟨hle, lt_of_lt_of_le hlt (le_trans h2 hT), ?_⟩
          intro g' hg'
          rcases List.mem_cons.1 hg' with rfl | hg'
          · intro hcon
            exact absurd hlt (not_lt.2 hcon.1)
          · intro hcon
            have : g.stop ≤ g'.start := silenceOK_start_le h3 g' hg'
            have : t < g'.start := lt_of_lt_of_le hlt (le_trans h2 this)
            exact absurd hcon.1 (not_le.2 this)
        · simp [hc] at hp
      · obtain ⟨hst, hT', hfree⟩ := (ih g.stop h3 t).1 ⟨p, hp, hle, hlt⟩
        refine ⟨le_trans (le_trans h1 h2) hst, hT', ?_⟩
        intro g' hg'
        rcases List.mem_cons.1 hg' with rfl | hg'
        · intro hcon
          exact absurd hst (not_le.2 hcon.2)
        · exact hfree g' hg'
    · rintro ⟨hct, htT, hfree⟩
      by_cases hts : t < g.start
      · have hc : c < g.start := lt_of_le_of_lt hct hts
        exact ⟨(c, g.start), Or.inl (by simp [hc]), hct, hts⟩
      · have hge : g.stop ≤ t := by
          by_contra hlt2
          push_neg at hlt2
          exact hfree g (List.mem_cons_self g rest) ⟨not_lt.1 hts, hlt2⟩
        obtain ⟨p, hp, hpt⟩ := (ih g.stop h3 t).2
          ⟨hge, htT, fun g' hg' => hfree g' (List.mem_cons_of_mem _ hg')⟩
        exact ⟨p, Or.inr hp, hpt⟩

/-- Claim C3: for a sorted, disjoint silence list contained in
`[0, total_duration]`, the keep-interval computation returns exactly the
complement of the silence within `[0, total_duration)` (membership
characterization), in ascending non-overlapping order; an empty silence list
yields the single interval `(0, total_duration)` (for a positive duration),
and the worked example holds. -/
theorem C3_keep_segments :
    (∀ (segs : List SilenceSeg) (T : ℚ), SilenceOK T 0 segs →
      (∀ t : ℚ,
        (∃ p ∈ calculate_keep_segments segs T, p.1 ≤ t ∧ t < p.2) ↔
          (0 ≤ t ∧ t < T ∧ ∀ g ∈ segs, ¬ (g.start ≤ t ∧ t < g.stop))) ∧
      List.Chain' (fun p q : ℚ × ℚ => p.2 ≤ q.1) (calculate_keep_segments segs T) ∧
      (∀ p ∈ calculate_keep_segments segs T, 0 ≤ p.1 ∧ p.1 < p.2 ∧ p.2 ≤ T)) ∧
    (∀ T : ℚ, 0 < T → calculate_keep_segments [] T = [(0, T)]) ∧
    calculate_keep_segments segsEx 10 = [(0, 2), (4, 6), (7, 10)] := by
  refine ⟨?_, ?_, by decide⟩
  · intro segs T h
    exact ⟨keepWalk_cover segs 0 h, keepWalk_chain segs 0 h, keepWalk_bounds segs 0 h⟩
  · intro T hT
    simp [calculate_keep_segments, keepWalk, hT]

/-- Witness for C3: the hypotheses are satisfied by the worked example
(`SilenceOK` holds for `[(2,4),(6,7)]` within `[0,10]`, and `0 < 10`). -/
theorem C3_keep_segments_witness :
    ((∃ p ∈ calculate_keep_segments segsEx 10, p.1 ≤ (5 : ℚ) ∧ (5 : ℚ) < p.2) ↔
      (0 ≤ (5 : ℚ) ∧ (5 : ℚ) < 10 ∧ ∀ g ∈ segsEx, ¬ (g.start ≤ 5 ∧ (5 : ℚ) < g.stop))) ∧
    calculate_keep_segments [] 10 = [(0, 10)] :=
  ⟨(C3_keep_segments.1 segsEx 10 (by decide)).1 5, C3_keep_segments.2.1 10 (by decide)⟩

/-! ## C8 — time-parser failure characterization -/

theorem fracVal_nonneg (ds : List Char) : 0 ≤ fracVal ds := by
  unfold fracVal
  rw [Rat.mkRat_eq_div]
  positivity

theorem secCandidate_nonneg (units : List (List Char)) (all : List Char) (v : ℚ)
    (h : secCandidate units all = some v) : 0 ≤ v := by
  dsimp only [secCandidate] at h
  split at h
  · rename_i v' heq
    cases h
    split at heq
    · rename_i r2
      split at heq
      · cases heq
      · split at heq
        · cases heq
          rw [qadd_eq]
          exact add_nonneg (Nat.cast_nonneg _) (fracVal_nonneg _)
        · cases heq
    · cases heq
  · split at h
    · cases h
      exact Nat.cast_nonneg _
    · cases h

theorem searchSecUnit_nonneg (units : List (List Char)) :
    ∀ (cs : List Char) (v : ℚ), searchSecUnit units cs = some v → 0 ≤ v := by
  intro cs
  induction cs with
  | nil => intro v h; cases h
  | cons c rest ih =>
    intro v h
    dsimp only [searchSecUnit] at h
    split at h
    · split at h
      · rename_i v' heq
        cases h
        exact secCandidate_nonneg units (c :: rest) v heq
      · exact ih v h
    · exact ih v h

theorem nlTotal_nonneg (cs : List Char) : 0 ≤ nlTotal cs := by
  unfold nlTotal
  rw [qadd_eq, qadd_eq]
  have h1 : (0 : ℚ) ≤
      match searchNumUnit hourUnits cs with
      | some n => ((n * 3600 : ℕ) : ℚ)
      | none => 0 := by
    cases searchNumUnit hourUnits cs <;> simp
  have h2 : (0 : ℚ) ≤
      match searchNumUnit minuteUnits cs with
      | some n => ((n * 60 : ℕ) : ℚ)
      | none => 0 := by
    cases searchNumUnit minuteUnits cs <;> simp
  have h3 : (0 : ℚ) ≤
      match searchSecUnit secondUnits cs with
      | some v => v
      | none => 0 := by
    cases hsec : searchSecUnit secondUnits cs with
    | none => simp
    | some v => exact searchSecUnit_nonneg secondUnits cs v hsec
  exact add_nonneg (add_nonneg h1 h2) h3

/-- Claim C8: the time parser fails exactly when the normalized input is not
a valid 2- or 3-group colon form and, in addition, its natural-language total
is zero while the bare-numeric fallback is missing, non-numeric, or `≤ 0`;
colon-form results are returned even when `0`, a positive natural-language
total is returned, and the worked examples hold. -/
theorem C8_parse_failure :
    (∀ s : String,
      parse_time_string s = none ↔
        colonParse (normText s) = none ∧ nlTotal (normText s) = 0 ∧
          (pyFloat? (normText s) = none ∨
            ∃ v, pyFloat? (normText s) = some v ∧ v ≤ 0)) ∧
    (∀ (s : String) (v : ℚ), colonParse (normText s) = some v →
      parse_time_string s = some v) ∧
    (∀ s : String, colonParse (normText s) = none → nlTotal (normText s) ≠ 0 →
      parse_time_string s = some (nlTotal (normText s))) ∧
    parse_time_string "5 seconds" = some 5 ∧
    parse_time_string "1 minute 30 seconds" = some 90 ∧
    parse_time_string "abc" = none := by
  have hbody : ∀ s : String,
      parse_time_string s =
        match colonParse (normText s) with
        | some v => some v
        | none =>
          if nlTotal (normText s) = 0 then
            match pyFloat? (normText s) with
            | none => none
            | some v => if v > 0 then some v else none
          else if nlTotal (normText s) > 0 then some (nlTotal (normText s)) else none :=
    fun s => rfl
  refine ⟨?_, ?_, ?_, by decide, by decide, by decide⟩
  · intro s
    rw [hbody s]
    cases hcolon : colonParse (normText s) with
    | some v =>
      constructor
      · intro h; cases h
      · rintro ⟨h, -⟩; cases h
    | none =>
      by_cases htot : nlTotal (normText s) = 0
      · change (if nlTotal (normText s) = 0 then _ else _) = none ↔ _
        rw [if_pos htot]
        cases hf : pyFloat? (normText s) with
        | none =>
          constructor
          · intro _
            exact ⟨rfl, htot, Or.inl rfl⟩
          · intro _
            rfl
        | some v =>
          change (if v > 0 then some v else none) = none ↔ _
          by_cases hv : v > 0
          · rw [if_pos hv]
            constructor
            · intro h; cases h
            · rintro ⟨-, -, hor⟩
              rcases hor with h | ⟨w, hw, hw0⟩
              · cases h
              · cases hw
                exact absurd hv (not_lt.2 hw0)
          · rw [if_neg hv]
            constructor
            · intro _
              exact ⟨rfl, htot, Or.inr ⟨v, rfl, not_lt.1 hv⟩⟩
            · intro _
              rfl
      · have hpos : nlTotal (normText s) > 0 :=
          lt_of_le_of_ne (nlTotal_nonneg (normText s)) (Ne.symm htot)
        change (if nlTotal (normText s) = 0 then _ else _) = none ↔ _
        rw [if_neg htot, if_pos hpos]
        constructor
        · intro h; cases h
        · rintro ⟨-, h, -⟩
          exact absurd h htot
  · intro s v hcolon
    rw [hbody s, hcolon]
  · intro s hcolon htot
    have hpos : nlTotal (normText s) > 0 :=
      lt_of_le_of_ne (nlTotal_nonneg (normText s)) (Ne.symm htot)
    rw [hbody s, hcolon]
    simp [htot, hpos]

/-- Witness for C8: the colon form `1:30` is returned as `90` via the
colon-form conjunct, and `45 seconds` is returned via the positive
natural-language-total conjunct. -/
theorem C8_parse_failure_witness :
    parse_time_string "1:30" = some 90 ∧ parse_time_string "45 seconds" = some 45 := by
  constructor
  · exact C8_parse_failure.2.1 "1:30" 90 (by decide)
  · have h := C8_parse_failure.2.2.1 "45 seconds" (by decide) (by decide)
    rw [h]
    decide

/-! ## C9 — salvage of malformed oracle parameter text -/

/-- Claim C9 is false as stated: on the raw text `{oops}` a brace-delimited
substring exists but fails to parse, and the second `json.loads` raises an
uncaught `JSONDecodeError` — parameter extraction fails outright instead of
treating `params` as the empty map. -/
theorem C9_counterexample :
    parseParamsText "\x7boops\x7d" = .jsonError ∧
    ParamsResult.jsonError ≠ ParamsResult.ok (JVal.obj []) :=
  ⟨rfl, fun h => ParamsResult.noConfusion h⟩

/-- Amended claim C9: the empty-map fallback applies only when no
brace-delimited substring exists in the raw text; when one exists but fails
to parse, the error propagates and parameter extraction fails; an empty
parameter map on the addition path degrades to the empty subtitle at
`0.0`–`3.0`. -/
theorem C9_amended :
    (∀ content : String,
      json_loads (String.mk (wsTrim content.toList)) = none →
      braceSearch content.toList = none →
      parseParamsText content = .ok (.obj [])) ∧
    (∀ (content : String) (sub : List Char),
      json_loads (String.mk (wsTrim content.toList)) = none →
      braceSearch content.toList = some sub →
      json_loads (String.mk sub) = none →
      parseParamsText content = .jsonError) ∧
    extract_parameters "add_subtitle" [] =
      .edit { subtitle_index := none, text := some (.str ""),
              start_time := some 0, end_time := some 3 } := by
  refine ⟨?_, ?_, rfl⟩
  · intro content h1 h2
    unfold parseParamsText
    rw [h1, h2]
  · intro content sub h1 h2 h3
    unfold parseParamsText
    rw [h1, h2]
    show (match json_loads (String.mk sub) with
      | some v => ParamsResult.ok v
      | none => ParamsResult.jsonError) = ParamsResult.jsonError
    rw [h3]

/-- Witness for C9: a text with no brace pair degrades to the empty map; a
text whose first brace-delimited substring is invalid JSON fails. -/
theorem C9_amended_witness :
    parseParamsText "no json here" = .ok (.obj []) ∧
    parseParamsText "\x7bbad\x7d and more" = .jsonError :=
  ⟨C9_amended.1 "no json here" rfl rfl,
   C9_amended.2.1 "\x7bbad\x7d and more" "\x7bbad\x7d".toList rfl rfl rfl⟩

/-- Claim C4 is false as stated: `modify_style` with an ordinal supplied
(`subtitle_index = 2`) still takes the addition path — the built edit carries
no `subtitle_index`, and applying it appends a new subtitle instead of
updating the referenced one. -/
theorem C4_counterexample :
    extract_parameters "modify_style" paramsC4 = .edit editC4 ∧
    editC4.subtitle_index = none ∧
    apply_edit tlC4 "sub_new" editC4 =
      .ok (tlC4 ++ [{ id := "sub_new", text := "", start_time := 0, end_time := 3,
                      style := { styleD with font_color := "red" } }]) none ∧
    sessionAfter tlC4 "sub_new" editC4 ≠ tlC4 := by
  refine ⟨rfl, rfl, rfl, ?_⟩
  decide

/-- Amended claim C4: `modify_style` always behaves exactly like
`add_subtitle` (the addition path), regardless of whether an ordinal is
supplied: the built edit never carries a `subtitle_index`, and such edits are
routed to the insertion branch at apply time; only `modify_subtitle` takes
the modification path. -/
theorem C4_amended :
    (∀ params : Params,
      extract_parameters "modify_style" params = extract_parameters "add_subtitle" params) ∧
    (∀ (params : Params) (e : SubtitleEdit),
      extract_parameters "modify_style" params = .edit e → e.subtitle_index = none) ∧
    (∀ (subs : List Subtitle) (fid : String) (e : SubtitleEdit),
      e.subtitle_index = none → apply_edit subs fid e = addBranch subs fid e) ∧
    (∀ params : Params,
      extract_parameters "modify_subtitle" params = .edit (modificationEdit params)) := by
  refine ⟨fun params => rfl, ?_, ?_, fun params => rfl⟩
  · intro params e h
    have hb : extract_parameters "modify_style" params =
        (match additionEdit params with
          | some e0 => ExtractResult.edit e0
          | none => ExtractResult.raised) := rfl
    rw [hb] at h
    cases hadd : additionEdit params with
    | none => rw [hadd] at h; cases h
    | some e0 =>
      rw [hadd] at h
      cases h
      simp only [additionEdit] at hadd
      split at hadd
      · cases hadd
      · split at hadd
        · cases hadd
          rfl
        · cases hadd
  · intro subs fid e h
    unfold apply_edit
    rw [h]

/-- Witness for C4: the amended statement instantiated at the ordinal-bearing
`modify_style` request of the counterexample. -/
theorem C4_amended_witness :
    extract_parameters "modify_style" paramsC4 = extract_parameters "add_subtitle" paramsC4 ∧
    editC4.subtitle_index = none ∧
    apply_edit tlC4 "sub_new" editC4 = addBranch tlC4 "sub_new" editC4 :=
  ⟨C4_amended.1 paramsC4, C4_amended.2.1 paramsC4 editC4 rfl,
   C4_amended.2.2.1 tlC4 "sub_new" editC4 rfl⟩

/-! ## C5 — addition-path defaults -/

/-- Claim C5 is false as stated: a present `start_time` whose value is the
empty string is unparseable, yet the addition path does not default it to
`0.0` — the falsy value skips both the parse and the default, and the
`float("")` coercion raises, aborting the request. -/
theorem C5_counterexample :
    parse_time_string "" = none ∧
    extract_parameters "add_subtitle" [("start_time", JVal.str "")] = .raised ∧
    extract_parameters "add_subtitle" [("start_time", JVal.str "")] ≠
      .edit { subtitle_index := none, text := some (.str ""),
              start_time := some 0, end_time := some 3 } :=
  ⟨rfl, rfl, fun h => ExtractResult.noConfusion h⟩

/-- Amended claim C5: `text` defaults by truthiness to `""`; `start_time`
defaults to `0.0` when absent/null, or when present, truthy and unparseable;
`end_time` defaults to `start_time + 3.0` when absent/null, when truthy and
unparseable, or when its parsed value is `≤ start_time`; but falsy non-null
present values (numeric `0`, `""`, empty containers) bypass the parser and
flow into `float()`/comparisons raw, so an empty-string time aborts the
request instead of defaulting; a request carrying only `text="Hi"` yields
`start_time=0.0`, `end_time=3.0`. -/
theorem C5_amended :
    (∀ (params : Params) (e : SubtitleEdit),
      extract_parameters "add_subtitle" params = .edit e →
      e.text = some (orDefault (pyGetOpt params "text") (.str ""))) ∧
    (∀ params : Params,
      pyGetOpt params "start_time" = none → addStartVal params = .num 0) ∧
    (∀ (params : Params) (v : JVal),
      pyGetOpt params "start_time" = some v → pyTruthy v = true →
      parse_time_string (pyStr v) = none → addStartVal params = .num 0) ∧
    (∀ (params : Params) (q : ℚ),
      pyGetOpt params "end_time" = none →
      addEndVal params (.num q) = some (.num (qadd q 3))) ∧
    (∀ (params : Params) (v : JVal) (q : ℚ),
      pyGetOpt params "end_time" = some v → pyTruthy v = true →
      parse_time_string (pyStr v) = none →
      addEndVal params (.num q) = some (.num (qadd q 3))) ∧
    (∀ (params : Params) (v : JVal) (q w : ℚ),
      pyGetOpt params "end_time" = some v → pyTruthy v = true →
      parse_time_string (pyStr v) = some w → w ≤ q →
      addEndVal params (.num q) = some (.num (qadd q 3))) ∧
    extract_parameters "add_subtitle" [("text", JVal.str "Hi")] =
      .edit { subtitle_index := none, text := some (.str "Hi"),
              start_time := some 0, end_time := some 3 } := by
  refine ⟨?_, ?_, ?_, ?_, ?_, ?_, rfl⟩
  · intro params e h
    have hb : extract_parameters "add_subtitle" params =
        (match additionEdit params with
          | some e0 => ExtractResult.edit e0
          | none => ExtractResult.raised) := rfl
    rw [hb] at h
    cases hadd : additionEdit params with
    | none => rw [hadd] at h; cases h
    | some e0 =>
      rw [hadd] at h
      cases h
      simp only [additionEdit] at hadd
      split at hadd
      · cases hadd
      · split at hadd
        · cases hadd
          rfl
        · cases hadd
  · intro params h
    unfold addStartVal
    rw [h]
  · intro params v h ht hp
    unfold addStartVal
    rw [h]
    show (if pyTruthy v = true then
        match parse_time_string (pyStr v) with
        | some q => JVal.num q
        | none => JVal.num 0
      else v) = JVal.num 0
    rw [if_pos ht, hp]
  · intro params q h
    unfold addEndVal
    rw [h]
    rfl
  · intro params v q h ht hp
    unfold addEndVal
    rw [h]
    show (match (if pyTruthy v = true then
          match parse_time_string (pyStr v) with
          | some w => some (JVal.num w)
          | none => none
        else some v) with
      | none => Option.map JVal.num (plus3 (JVal.num q))
      | some e =>
        match pyLe e (JVal.num q) with
        | some true => Option.map JVal.num (plus3 (JVal.num q))
        | some false => some e
        | none => none) = some (.num (qadd q 3))
    rw [if_pos ht, hp]
    rfl
  · intro params v q w h ht hp hle
    unfold addEndVal
    rw [h]
    show (match (if pyTruthy v = true then
          match parse_time_string (pyStr v) with
          | some w => some (JVal.num w)
          | none => none
        else some v) with
      | none => Option.map JVal.num (plus3 (JVal.num q))
      | some e =>
        match pyLe e (JVal.num q) with
        | some true => Option.map JVal.num (plus3 (JVal.num q))
        | some false => some e
        | none => none) = some (.num (qadd q 3))
    rw [if_pos ht, hp]
    show (match pyLe (.num w) (.num q) with
      | some true => Option.map JVal.num (plus3 (JVal.num q))
      | some false => some (.num w)
      | none => none) = some (.num (qadd q 3))
    have hple : pyLe (.num w) (.num q) = some true := by
      unfold pyLe toNumQ
      simp [hle]
    rw [hple]
    rfl

/-- Witness for C5: the defaults instantiated at concrete parameter maps. -/
theorem C5_amended_witness :
    addStartVal [] = .num 0 ∧
    addStartVal [("start_time", JVal.str "abc")] = .num 0 ∧
    addEndVal [] (.num 0) = some (.num (qadd 0 3)) ∧
    addEndVal [("end_time", JVal.str "2 seconds")] (.num 5) = some (.num (qadd 5 3)) :=
  ⟨C5_amended.2.1 [] rfl,
   C5_amended.2.2.1 [("start_time", JVal.str "abc")] (.str "abc") rfl rfl (by decide),
   C5_amended.2.2.2.1 [] 0 rfl,
   C5_amended.2.2.2.2.2.1 [("end_time", JVal.str "2 seconds")] (.str "2 seconds") 5 2
     rfl rfl (by decide) (by decide)⟩

/-- Claim C10: the `-1` default applies only to an absent key; an explicit
null `subtitle_index` survives extraction as null, and the apply step routes
such an edit to the insertion branch (which can only append, never touch an
existing subtitle) instead of updating the most recent subtitle.  On the
concrete input the attempted insertion then fails pydantic validation
(`text`/times are `None`), leaving the timeline unchanged. -/
theorem C10_null_index_insert :
    (∀ params : Params,
      dictGet params "subtitle_index" = some .null →
      (modificationEdit params).subtitle_index = some .null) ∧
    (∀ (subs : List Subtitle) (fid : String) (e : SubtitleEdit),
      e.subtitle_index = some .null → apply_edit subs fid e = addBranch subs fid e) ∧
    (∀ (subs : List Subtitle) (fid : String) (e : SubtitleEdit)
        (l : List Subtitle) (m : Option ℕ),
      addBranch subs fid e = .ok l m → (∃ u, l = subs ++ [u]) ∧ m = none) ∧
    extract_parameters "modify_subtitle" [("subtitle_index", JVal.null)] =
      .edit (modificationEdit [("subtitle_index", JVal.null)]) ∧
    (modificationEdit [("subtitle_index", JVal.null)]).subtitle_index = some .null ∧
    apply_edit [subEx58] "f" (modificationEdit [("subtitle_index", JVal.null)]) = .raised ∧
    sessionAfter [subEx58] "f" (modificationEdit [("subtitle_index", JVal.null)]) =
      [subEx58] := by
  refine ⟨?_, ?_, ?_, rfl, rfl, rfl, rfl⟩
  · intro params h
    show some (pyGetD params "subtitle_index" (.num (-1))) = some JVal.null
    unfold pyGetD
    rw [h]
    rfl
  · intro subs fid e h
    unfold apply_edit
    rw [h]
  · intro subs fid e l m h
    unfold addBranch at h
    split at h
    · split at h
      · cases h
      · cases h
        exact ⟨⟨_, rfl⟩, rfl⟩
    · cases h

/-- Witness for C10: the routing and the insertion-branch shape instantiated
on concrete inputs. -/
theorem C10_null_index_insert_witness :
    (modificationEdit [("subtitle_index", JVal.null)]).subtitle_index = some .null ∧
    apply_edit [subEx58] "f" (modificationEdit [("subtitle_index", JVal.null)]) =
      addBranch [subEx58] "f" (modificationEdit [("subtitle_index", JVal.null)]) ∧
    ((∃ u, [subEx58, { id := "f2", text := "x", start_time := 1, end_time := 2,
                       style := styleD }] = [subEx58] ++ [u]) ∧
      (none : Option ℕ) = none) :=
  ⟨C10_null_index_insert.1 [("subtitle_index", JVal.null)] rfl,
   C10_null_index_insert.2.1 [subEx58] "f" (modificationEdit [("subtitle_index", JVal.null)]) rfl,
   C10_null_index_insert.2.2.1 [subEx58] "f2" editIns
     [subEx58, { id := "f2", text := "x", start_time := 1, end_time := 2, style := styleD }]
     none rfl⟩

/-! ## C6 — ordinal resolution and out-of-range updates -/

theorem modifyBranch_congr (subs : List Subtitle) (e₁ e₂ : SubtitleEdit) (i : ℕ)
    (ht : e₁.text = e₂.text) (hst : e₁.start_time = e₂.start_time)
    (hen : e₁.end_time = e₂.end_time) (hff : e₁.font_family = e₂.font_family)
    (hfs : e₁.font_size = e₂.font_size) (hfc : e₁.font_color = e₂.font_color)
    (hpos : e₁.position = e₂.position) (hb : e₁.bold = e₂.bold)
    (hit : e₁.italic = e₂.italic) :
    modifyBranch subs e₁ i = modifyBranch subs e₂ i := by
  unfold modifyBranch
  rw [ht, hst, hen, hff, hfs, hfc, hpos, hb, hit]

/-- The update route of `apply_edit` for an integer ordinal, expressed with
the resolution arithmetic done in `ℤ`: negative indices resolve to
`length + index`, an out-of-range resolved index yields the handled index
error, otherwise the modification branch runs at the resolved position. -/
theorem apply_edit_int (subs : List Subtitle) (fid : String) (e : SubtitleEdit) (i : ℤ)
    (h : e.subtitle_index = some (.num (i : ℚ))) :
    apply_edit subs fid e =
      if (if i < 0 then (subs.length : ℤ) + i else i) < 0 ∨
          (subs.length : ℤ) ≤ (if i < 0 then (subs.length : ℤ) + i else i)
      then .indexError (.num (i : ℚ))
      else modifyBranch subs e (if i < 0 then (subs.length : ℤ) + i else i).toNat := by
  unfold apply_edit
  rw [h]
  show (if (if (i : ℚ) < 0 then qadd (subs.length : ℚ) (i : ℚ) else (i : ℚ)) < 0 ∨
      (subs.length : ℚ) ≤ (if (i : ℚ) < 0 then qadd (subs.length : ℚ) (i : ℚ) else (i : ℚ))
    then ApplyOutcome.indexError (.num (i : ℚ))
    else if (if (i : ℚ) < 0 then qadd (subs.length : ℚ) (i : ℚ) else (i : ℚ)).den ≠ 1
      then ApplyOutcome.raised
      else modifyBranch subs e
        (if (i : ℚ) < 0 then qadd (subs.length : ℚ) (i : ℚ) else (i : ℚ)).num.toNat) = _
  have hcast : (if (i : ℚ) < 0 then qadd (subs.length : ℚ) (i : ℚ) else (i : ℚ)) =
      ((if i < 0 then (subs.length : ℤ) + i else i : ℤ) : ℚ) := by
    by_cases hi : i < 0
    · rw [if_pos (show (i : ℚ) < 0 by exact_mod_cast hi), if_pos hi, qadd_eq]
      push_cast
      ring
    · rw [if_neg (show ¬ (i : ℚ) < 0 by exact_mod_cast hi), if_neg hi]
  rw [hcast]
  set r : ℤ := if i < 0 then (subs.length : ℤ) + i else i with hr
  by_cases hcond : r < 0 ∨ (subs.length : ℤ) ≤ r
  · rw [if_pos hcond, if_pos ?_]
    rcases hcond with hc | hc
    · exact Or.inl (by exact_mod_cast hc)
    · exact Or.inr (by exact_mod_cast hc)
  · rw [if_neg hcond, if_neg ?_, if_neg ?_]
    · rw [Rat.num_intCast]
    · rw [Rat.den_intCast]
      exact fun hne => hne rfl
    · rw [not_or] at hcond ⊢
      constructor
      · exact_mod_cast hcond.1
      · exact_mod_cast hcond.2

/-- Claim C6: a negative index resolves to `n + index`; an out-of-range
resolved index fails with the handled index error and leaves the session's
timeline unchanged; and index `-1` on a 3-element timeline runs the same
update as index `2`. -/
theorem C6_index_resolution :
    (∀ (subs : List Subtitle) (fid : String) (e : SubtitleEdit) (i : ℤ),
      e.subtitle_index = some (.num (i : ℚ)) →
      ((if i < 0 then (subs.length : ℤ) + i else i) < 0 ∨
        (subs.length : ℤ) ≤ (if i < 0 then (subs.length : ℤ) + i else i)) →
      apply_edit subs fid e = .indexError (.num (i : ℚ)) ∧
        sessionAfter subs fid e = subs) ∧
    (∀ (subs : List Subtitle) (fid : String) (e : SubtitleEdit),
      subs.length = 3 →
      apply_edit subs fid { e with subtitle_index := some (.num ((-1 : ℤ) : ℚ)) } =
        apply_edit subs fid { e with subtitle_index := some (.num ((2 : ℤ) : ℚ)) }) := by
  constructor
  · intro subs fid e i h hout
    have ha := apply_edit_int subs fid e i h
    rw [if_pos hout] at ha
    refine ⟨ha, ?_⟩
    unfold sessionAfter
    rw [ha]
  · intro subs fid e h3
    have h1 := apply_edit_int subs fid
      { e with subtitle_index := some (.num ((-1 : ℤ) : ℚ)) } (-1) rfl
    have h2 := apply_edit_int subs fid
      { e with subtitle_index := some (.num ((2 : ℤ) : ℚ)) } 2 rfl
    rw [h3] at h1 h2
    norm_num at h1 h2 ⊢
    rw [h1, h2]
    exact modifyBranch_congr subs _ _ 2 rfl rfl rfl rfl rfl rfl rfl rfl rfl

/-- Witness for C6: index `5` on the 3-element timeline fails and leaves it
unchanged; `-1` and `2` coincide on the same timeline. -/
theorem C6_index_resolution_witness :
    (apply_edit tlC4 "f" editIdx5 = .indexError (.num ((5 : ℤ) : ℚ)) ∧
      sessionAfter tlC4 "f" editIdx5 = tlC4) ∧
    apply_edit tlC4 "f" { editUpd with subtitle_index := some (.num ((-1 : ℤ) : ℚ)) } =
      apply_edit tlC4 "f" { editUpd with subtitle_index := some (.num ((2 : ℤ) : ℚ)) } :=
  ⟨C6_index_resolution.1 tlC4 "f" editIdx5 5 rfl (by decide),
   C6_index_resolution.2 tlC4 "f" editUpd (by decide)⟩

/-- Claim C7: on the modification path, absent-or-null parameter fields are
extracted as `None` (absent timestamps never default to a fixed value), and
the apply step overlays only non-`None` fields, preserving the original id. -/
theorem C7_overlay :
    (∀ params : Params,
      (pyGetOpt params "text" = none → (modificationEdit params).text = none) ∧
      (pyGetOpt params "start_time" = none → (modificationEdit params).start_time = none) ∧
      (pyGetOpt params "end_time" = none → (modificationEdit params).end_time = none) ∧
      (pyGetOpt params "font_family" = none → (modificationEdit params).font_family = none) ∧
      (pyGetOpt params "font_size" = none → (modificationEdit params).font_size = none) ∧
      (pyGetOpt params "font_color" = none → (modificationEdit params).font_color = none) ∧
      (pyGetOpt params "position" = none → (modificationEdit params).position = none) ∧
      (pyGetOpt params "bold" = none → (modificationEdit params).bold = none) ∧
      (pyGetOpt params "italic" = none → (modificationEdit params).italic = none)) ∧
    (∀ (subs : List Subtitle) (e : SubtitleEdit) (i : ℕ) (ex : Subtitle)
        (l : List Subtitle) (m : Option ℕ),
      subs[i]? = some ex → modifyBranch subs e i = .ok l m →
      OverlayConcl subs e i ex l m) := by
  constructor
  · intro params
    refine ⟨fun h => h, ?_, ?_, fun h => h, fun h => h, fun h => h, fun h => h,
      fun h => h, fun h => h⟩
    · intro h
      show (match pyGetOpt params "start_time" with
        | some v => parse_time_string (pyStr v)
        | none => none) = none
      rw [h]
    · intro h
      show (match pyGetOpt params "end_time" with
        | some v => parse_time_string (pyStr v)
        | none => none) = none
      rw [h]
  · intro subs e i ex l m h1 h2
    unfold modifyBranch at h2
    rw [h1] at h2
    split at h2
    · cases h2
    · rename_i existing hex
      obtain rfl : existing = ex := (Option.some.inj hex).symm
      split at h2
      · rename_i ff fs fc pos bo it tx hff hfs hfc hpos hbo hit htx
        dsimp only at h2
        split at h2
        · cases h2
        · cases h2
          refine ⟨rfl, _, rfl, rfl, ?_, ?_, ?_, ?_, ?_, ?_, ?_, ?_, ?_, ?_, ?_, ?_, ?_⟩
          · intro het
            rw [het] at htx
            exact (Option.some.inj htx).symm
          · intro v hv
            rw [hv] at htx
            exact htx
          · intro h
            rw [h]
            rfl
          · intro q hq
            rw [hq]
            rfl
          · intro h
            rw [h]
            rfl
          · intro q hq
            rw [hq]
            rfl
          · intro h
            rw [h] at hff
            exact (Option.some.inj hff).symm
          · intro h
            rw [h] at hfs
            exact (Option.some.inj hfs).symm
          · intro h
            rw [h] at hfc
            exact (Option.some.inj hfc).symm
          · intro v hv
            rw [hv] at hfc
            exact hfc
          · intro h
            rw [h] at hpos
            exact (Option.some.inj hpos).symm
          · intro h
            rw [h] at hbo
            exact (Option.some.inj hbo).symm
          · intro h
            rw [h] at hit
            exact (Option.some.inj hit).symm
      · cases h2

/-- Witness for C7: a `modify_subtitle` parameter map carrying only a color
leaves text and both timestamps as `None`, and applying the edit at index `0`
overlays only the color, preserving everything else. -/
theorem C7_overlay_witness :
    ((modificationEdit [("font_color", JVal.str "red")]).text = none ∧
      (modificationEdit [("font_color", JVal.str "red")]).start_time = none ∧
      (modificationEdit [("font_color", JVal.str "red")]).end_time = none) ∧
    OverlayConcl [subEx58] editFC 0 subEx58 [subFC] (some 0) :=
  ⟨⟨(C7_overlay.1 [("font_color", JVal.str "red")]).1 rfl,
    (C7_overlay.1 [("font_color", JVal.str "red")]).2.1 rfl,
    (C7_overlay.1 [("font_color", JVal.str "red")]).2.2.1 rfl⟩,
   C7_overlay.2 [subEx58] editFC 0 subEx58 [subFC] (some 0) rfl rfl⟩

/-- Claim C1 is false as stated: the indexed update rebuilding the subtitle
to `start = 5, end = 3` violates `end_time > start_time`, yet no
`InvalidTiming` rejection exists — the schema only validates `≥ 0`, so the
update succeeds and the violating subtitle is committed to the session. -/
theorem C1_counterexample :
    apply_edit [subC1] "f" editC1 = .ok [{ subC1 with start_time := 5 }] (some 0) ∧
    sessionAfter [subC1] "f" editC1 = [{ subC1 with start_time := 5 }] ∧
    ({ subC1 with start_time := 5 } : Subtitle).end_time ≤
      ({ subC1 with start_time := 5 } : Subtitle).start_time :=
  ⟨rfl, rfl, by decide⟩

theorem toNumQ_floatCoerce (x : JVal) (w : ℚ) (h : toNumQ x = some w) :
    floatCoerce x = some w := by
  cases x with
  | num q => exact h
  | bool b => exact h
  | null => cases h
  | str s => cases h
  | arr l => cases h
  | obj l => cases h

theorem addStartVal_numeric (params : Params) (sq : ℚ)
    (h : floatCoerce (addStartVal params) = some sq) :
    toNumQ (addStartVal params) = some sq := by
  unfold addStartVal at h ⊢
  cases hop : pyGetOpt params "start_time" with
  | none =>
    rw [hop] at h
    exact h
  | some v =>
    rw [hop] at h
    dsimp only at h ⊢
    by_cases ht : pyTruthy v = true
    · rw [if_pos ht] at h ⊢
      cases hp : parse_time_string (pyStr v) with
      | some q =>
        rw [hp] at h
        exact h
      | none =>
        rw [hp] at h
        exact h
    · rw [if_neg ht] at h ⊢
      cases v with
      | null => exact h
      | bool b => exact h
      | num q => exact h
      | arr l => exact h
      | obj l => exact h
      | str s =>
        have hs : s = "" := by
          by_contra hne
          exact ht (by simp [pyTruthy, hne])
        subst hs
        exact Option.noConfusion h

theorem pyLe_branch (st e0v : JVal) (sq w : ℚ) (en : JVal) (eq2 : ℚ)
    (hnum : toNumQ st = some sq) (hw : toNumQ e0v = some w)
    (hend : (match pyLe e0v st with
      | some true => Option.map JVal.num (plus3 st)
      | some false => some e0v
      | none => none) = some en)
    (hen : floatCoerce en = some eq2) : sq < eq2 := by
  have hplus : plus3 st = some (qadd sq 3) := by
    unfold plus3
    rw [hnum]
  have hple : pyLe e0v st = some (decide (w ≤ sq)) := by
    unfold pyLe
    cases e0v with
    | num q =>
      show (match toNumQ (.num q), toNumQ st with
        | some x, some y => some (decide (x ≤ y))
        | _, _ => none) = some (decide (w ≤ sq))
      rw [hnum]
      cases hw
      rfl
    | bool b =>
      show (match toNumQ (.bool b), toNumQ st with
        | some x, some y => some (decide (x ≤ y))
        | _, _ => none) = some (decide (w ≤ sq))
      rw [hnum]
      cases hw
      rfl
    | null => cases hw
    | str s => cases hw
    | arr l => cases hw
    | obj l => cases hw
  rw [hple] at hend
  by_cases hle : w ≤ sq
  · rw [decide_eq_true hle] at hend
    have h3 : Option.map JVal.num (plus3 st) = some en := hend
    rw [hplus] at h3
    have h4 : some (JVal.num (qadd sq 3)) = some en := h3
    obtain rfl := Option.some.inj h4
    have h5 : some (qadd sq 3) = some eq2 := hen
    obtain rfl := Option.some.inj h5
    rw [qadd_eq]
    linarith
  · rw [decide_eq_false hle] at hend
    have h3 : some e0v = some en := hend
    obtain rfl := Option.some.inj h3
    have h4 : floatCoerce e0v = some w := toNumQ_floatCoerce e0v w hw
    rw [h4] at hen
    obtain rfl := Option.some.inj hen
    linarith [not_le.1 hle]

theorem addEndVal_gt (params : Params) (st en : JVal) (sq eq2 : ℚ)
    (hnum : toNumQ st = some sq)
    (hend : addEndVal params st = some en)
    (hen : floatCoerce en = some eq2) : sq < eq2 := by
  have hplus : plus3 st = some (qadd sq 3) := by
    unfold plus3
    rw [hnum]
  unfold addEndVal at hend
  cases hop : pyGetOpt params "end_time" with
  | none =>
    rw [hop] at hend
    have h3 : Option.map JVal.num (plus3 st) = some en := hend
    rw [hplus] at h3
    have h4 : some (JVal.num (qadd sq 3)) = some en := h3
    obtain rfl := Option.some.inj h4
    have h5 : some (qadd sq 3) = some eq2 := hen
    obtain rfl := Option.some.inj h5
    rw [qadd_eq]
    linarith
  | some v =>
    rw [hop] at hend
    dsimp only at hend
    by_cases ht : pyTruthy v = true
    · rw [if_pos ht] at hend
      cases hp : parse_time_string (pyStr v) with
      | none =>
        rw [hp] at hend
        have h3 : Option.map JVal.num (plus3 st) = some en := hend
        rw [hplus] at h3
        have h4 : some (JVal.num (qadd sq 3)) = some en := h3
        obtain rfl := Option.some.inj h4
        have h5 : some (qadd sq 3) = some eq2 := hen
        obtain rfl := Option.some.inj h5
        rw [qadd_eq]
        linarith
      | some w =>
        rw [hp] at hend
        have h3 : (match pyLe (.num w) st with
          | some true => Option.map JVal.num (plus3 st)
          | some false => some (JVal.num w)
          | none => none) = some en := hend
        exact pyLe_branch st (.num w) sq w en eq2 hnum rfl h3 hen
    · rw [if_neg ht] at hend
      have h3 : (match pyLe v st with
        | some true => Option.map JVal.num (plus3 st)
        | some false => some v
        | none => none) = some en := hend
      cases v with
      | null => exact Option.noConfusion (show (none : Option JVal) = some en from h3)
      | bool b => exact pyLe_branch st (.bool b) sq (if b then 1 else 0) en eq2 hnum rfl h3 hen
      | num q => exact pyLe_branch st (.num q) sq q en eq2 hnum rfl h3 hen
      | arr l => exact Option.noConfusion (show (none : Option JVal) = some en from h3)
      | obj l => exact Option.noConfusion (show (none : Option JVal) = some en from h3)
      | str s =>
        cases st with
        | str y => exact Option.noConfusion hnum
        | null => exact Option.noConfusion (show (none : Option JVal) = some en from h3)
        | bool b => exact Option.noConfusion (show (none : Option JVal) = some en from h3)
        | num q => exact Option.noConfusion (show (none : Option JVal) = some en from h3)
        | arr l => exact Option.noConfusion (show (none : Option JVal) = some en from h3)
        | obj l => exact Option.noConfusion (show (none : Option JVal) = some en from h3)

theorem additionEdit_times (params : Params) (e : SubtitleEdit)
    (h : additionEdit params = some e) :
    ∃ q q2, e.start_time = some q ∧ e.end_time = some q2 ∧ q < q2 := by
  simp only [additionEdit] at h
  split at h
  · cases h
  · rename_i en hend
    split at h
    · rename_i sq eq2 hst hen
      cases h
      exact ⟨sq, eq2, rfl, rfl,
        addEndVal_gt params (addStartVal params) en sq eq2
          (addStartVal_numeric params sq hst) hend hen⟩
    · cases h

theorem addBranch_ok_nonneg (subs : List Subtitle) (fid : String) (e : SubtitleEdit)
    (l : List Subtitle) (m : Option ℕ) (h : addBranch subs fid e = .ok l m)
    (hin : ∀ s ∈ subs, 0 ≤ s.start_time ∧ 0 ≤ s.end_time) :
    ∀ s ∈ l, 0 ≤ s.start_time ∧ 0 ≤ s.end_time := by
  unfold addBranch at h
  split at h
  · rename_i tx ff fs fc pos bo it st en htx hff hfs hfc hpos hbo hit hst hen
    split at h
    · cases h
    · rename_i hval
      cases h
      intro s hs
      rcases List.mem_append.1 hs with hs | hs
      · exact hin s hs
      · rw [List.mem_singleton] at hs
        subst hs
        exact ⟨le_of_not_lt fun hc => hval (Or.inl hc),
          le_of_not_lt fun hc => hval (Or.inr hc)⟩
  · cases h

theorem modifyBranch_ok_nonneg (subs : List Subtitle) (e : SubtitleEdit) (i : ℕ)
    (l : List Subtitle) (m : Option ℕ) (h : modifyBranch subs e i = .ok l m)
    (hin : ∀ s ∈ subs, 0 ≤ s.start_time ∧ 0 ≤ s.end_time) :
    ∀ s ∈ l, 0 ≤ s.start_time ∧ 0 ≤ s.end_time := by
  unfold modifyBranch at h
  split at h
  · cases h
  · rename_i existing hex
    split at h
    · rename_i ff fs fc pos bo it tx hff hfs hfc hpos hbo hit htx
      dsimp only at h
      split at h
      · cases h
      · rename_i hval
        cases h
        intro s hs
        rcases List.mem_or_eq_of_mem_set hs with hs | hs
        · exact hin s hs
        · subst hs
          exact ⟨le_of_not_lt fun hc => hval (Or.inl hc),
            le_of_not_lt fun hc => hval (Or.inr hc)⟩
    · cases h

/-- Amended claim C1: every successful apply preserves the schema-validated
invariant `start_time ≥ 0 ∧ end_time ≥ 0`; the `add_subtitle` extraction path
guarantees `end_time > start_time` for the edit it builds; but there is no
`InvalidTiming` rejection — the concrete indexed update that rebuilds a
subtitle with `end_time ≤ start_time` passes validation and is committed. -/
theorem C1_amended :
    (∀ (subs : List Subtitle) (fid : String) (e : SubtitleEdit)
        (l : List Subtitle) (m : Option ℕ),
      apply_edit subs fid e = .ok l m →
      (∀ s ∈ subs, 0 ≤ s.start_time ∧ 0 ≤ s.end_time) →
      ∀ s ∈ l, 0 ≤ s.start_time ∧ 0 ≤ s.end_time) ∧
    (∀ (params : Params) (e : SubtitleEdit),
      extract_parameters "add_subtitle" params = .edit e →
      ∃ q q2, e.start_time = some q ∧ e.end_time = some q2 ∧ q < q2) ∧
    apply_edit [subC1] "f" editC1 = .ok [{ subC1 with start_time := 5 }] (some 0) := by
  refine ⟨?_, ?_, rfl⟩
  · intro subs fid e l m h hin
    unfold apply_edit at h
    split at h
    · rename_i iv hiv
      split at h
      · exact addBranch_ok_nonneg subs fid e l m h hin
      · split at h
        · cases h
        · rename_i i0 hi0
          dsimp only at h
          split at h
          · split at h
            · cases h
            · split at h
              · cases h
              · exact modifyBranch_ok_nonneg subs e _ l m h hin
          · split at h
            · cases h
            · split at h
              · cases h
              · exact modifyBranch_ok_nonneg subs e _ l m h hin
    · exact addBranch_ok_nonneg subs fid e l m h hin
  · intro params e h
    have hb : extract_parameters "add_subtitle" params =
        (match additionEdit params with
          | some e0 => ExtractResult.edit e0
          | none => ExtractResult.raised) := rfl
    rw [hb] at h
    cases hadd : additionEdit params with
    | none => rw [hadd] at h; cases h
    | some e0 =>
      rw [hadd] at h
      cases h
      exact additionEdit_times params _ hadd

/-- Witness for C1: the preservation part instantiated at a concrete
successful insertion, and the addition-path guarantee instantiated at the
`text="Hi"` request. -/
theorem C1_amended_witness :
    (0 ≤ subIns.start_time ∧ 0 ≤ subIns.end_time) ∧
    (∃ q q2, editHi.start_time = some q ∧ editHi.end_time = some q2 ∧ q < q2) :=
  ⟨C1_amended.1 [subC1] "f2" editIns [subC1, subIns] none rfl (by decide) subIns (by decide),
   C1_amended.2.1 [("text", JVal.str "Hi")] editHi rfl⟩

end VideoEditor

